import Mathlib

/-!
# AbracaDABra audio pipeline: ring buffer and mute/fade state machine

A shallow embedding of the real-time audio delivery core of the AbracaDABra
DAB receiver GUI:

* the single-producer / single-consumer byte ring buffer shared between the
  decoder (resp. device input) thread and the audio output callback
  (`ComplexFifo` in `inputdevice.h`, `audioFifo_t` in `audiofifo.h`), with
  the producer-side write of `AirspyInput::processInputData` and the
  consumer-side reads of `AudioOutput::portAudioCbPrivate`;
* the PortAudio callback `AudioOutput::portAudioCbPrivate`
  (`gui/audiooutput.cpp`), `AudioOutput::start` and
  `AudioOutput::onStreamFinished`, with the mute/unmute exponential fade
  arithmetic.

Bytes are modelled as `ℕ`, int16 samples as `ℤ`, byte counters as `ℕ`
(the C++ counters are `uint64_t`, far from overflow for realistic sizes),
float scalars as exact `ℚ`/`ℝ` values.  The interleaving discipline of
the two threads is modelled by sequential interleaving of the buffer
operations, which is what the `count`-mutex discipline of the source
guarantees for the shared state.

The header `audiofifo.h` is not part of the source tree available here
(only `audiooutput.cpp/h` and `inputdevice.h` are); the constants and the
request-flag set it declares are modelled from the spec where marked.
-/

namespace AbracaDABra

/-! ## Constants -/

/-- `AUDIOOUTPUT_FADE_TIME_MS` from `gui/audiooutput.h` line 31. -/
def AUDIOOUTPUT_FADE_TIME_MS : ℕ := 60

/-- Modelled from the spec: `AUDIOOUTPUT_FADE_MIN_DB` lives in the missing
`audiofifo.h`; the spec fixes the fade floor as "a configured floor
(e.g. −70 dB)". -/
def AUDIOOUTPUT_FADE_MIN_DB : ℤ := -70

/-- Modelled from the spec: `AUDIOOUTPUT_FADE_MIN_LIN`, the linear gain of
the fade floor, `10^(FADE_MIN_DB/20)`. -/
noncomputable def AUDIOOUTPUT_FADE_MIN_LIN : ℝ :=
  (10 : ℝ) ^ ((AUDIOOUTPUT_FADE_MIN_DB : ℝ) / 20)

/-! ## The byte ring buffer

`ComplexFifo` (`inputdevice.h` lines 19-32) and `audioFifo_t` share the
same layout: a fixed byte array with `head`, `tail` and `count`.  The
compile-time capacity (`INPUT_FIFO_SIZE`, `AUDIO_FIFO_SIZE`) is carried as
a field so that invariants can be stated for any fixed size. -/

structure Fifo where
  capacity : ℕ
  buffer : List ℕ
  head : ℕ
  tail : ℕ
  count : ℕ
deriving DecidableEq, Repr

/-- `memcpy (buf + pos, data, data.length)`: overwrite `buf` with `data`
starting at offset `pos`. -/
def overlay (buf : List ℕ) (pos : ℕ) (data : List ℕ) : List ℕ :=
  buf.take pos ++ data ++ buf.drop (pos + data.length)

/-- The producer-side write, from `AirspyInput::processInputData`
(`part_002` lines 486-543): if free space `capacity - count` is smaller
than the chunk, the whole chunk is dropped (`return`, the Boolean result
records the drop for diagnostics); otherwise the chunk is copied at `head`
in at most two contiguous regions (`bytesTillEnd = capacity - head`), then
`head` advances (without wrapping in the non-split branch, exactly as in
the source) and `count` grows under the mutex. -/
def Fifo.write (f : Fifo) (chunk : List ℕ) : Fifo × Bool :=
  if f.capacity - f.count < chunk.length then (f, false)
  else
    let bytesTillEnd := f.capacity - f.head
    if chunk.length ≤ bytesTillEnd then
      ({ f with buffer := overlay f.buffer f.head chunk,
                head := f.head + chunk.length,
                count := f.count + chunk.length }, true)
    else
      ({ f with buffer := overlay (overlay f.buffer f.head (chunk.take bytesTillEnd)) 0
                  (chunk.drop bytesTillEnd),
                head := chunk.length - bytesTillEnd,
                count := f.count + chunk.length }, true)

/-- `(buf + pos)[0..len)`. -/
def readRange (buf : List ℕ) (pos len : ℕ) : List ℕ := (buf.drop pos).take len

/-- The bytes delivered by a consumer-side read of `len ≤ count` bytes,
from the read paths of `AudioOutput::portAudioCbPrivate`
(`gui/audiooutput.cpp` lines 266-343, 388-462, 476-552): one or two
contiguous copies from `tail`, split at the end of the array
(`bytesToEnd = capacity - tail`). -/
def Fifo.readOut (f : Fifo) (len : ℕ) : List ℕ :=
  let bytesToEnd := f.capacity - f.tail
  if bytesToEnd < len then
    readRange f.buffer f.tail bytesToEnd ++ readRange f.buffer 0 (len - bytesToEnd)
  else
    readRange f.buffer f.tail len

/-- The pointer/counter update of the same consumer-side read: `tail`
advances (to `len - bytesToEnd` in the wrapping branch, by `+= len`
otherwise, exactly as in the source) and `count` shrinks under the
mutex. -/
def Fifo.readAdvance (f : Fifo) (len : ℕ) : Fifo :=
  let bytesToEnd := f.capacity - f.tail
  if bytesToEnd < len then
    { f with tail := len - bytesToEnd, count := f.count - len }
  else
    { f with tail := f.tail + len, count := f.count - len }

/-- The byte stream currently stored: `count` bytes starting at `tail`,
wrapping at the end of the array. -/
def Fifo.contents (f : Fifo) : List ℕ :=
  ((f.buffer.drop f.tail) ++ f.buffer.take f.tail).take f.count

/-- Structural invariant of the ring buffer: the backing array has the
fixed size, `count`/`head`/`tail` stay within the capacity, and `head`
sits `count` bytes after `tail` modulo the capacity.  Because the
non-wrapping updates advance `head`/`tail` without reducing modulo the
size, offsets may momentarily equal `capacity` (meaning position `0`);
the last disjunct covers the empty buffer with `head` parked at
`capacity`. -/
def Fifo.Inv (f : Fifo) : Prop :=
  f.buffer.length = f.capacity ∧ f.count ≤ f.capacity ∧ f.tail ≤ f.capacity ∧
  f.head ≤ f.capacity ∧
  (f.head = f.tail + f.count ∨ f.tail + f.count = f.head + f.capacity ∨
    (f.tail = 0 ∧ f.count = 0 ∧ f.head = f.capacity))

instance (f : Fifo) : Decidable f.Inv := by unfold Fifo.Inv; infer_instance

/-- One interleaved operation on the shared buffer: a producer write of a
chunk or a consumer read of (up to) `len` bytes. -/
inductive FifoOp where
  | write (chunk : List ℕ)
  | read (len : ℕ)
deriving DecidableEq, Repr

/-- Effect of one operation: the new buffer, the bytes handed to the
consumer, and the chunk bytes accepted from the producer (empty if the
chunk was dropped on overflow).  A consumer read is clamped to `count`,
as in the callback, which reads only what is available on underrun. -/
def stepOp (f : Fifo) : FifoOp → Fifo × List ℕ × List ℕ
  | .write chunk =>
      ((f.write chunk).1, [], if (f.write chunk).2 then chunk else [])
  | .read len =>
      (f.readAdvance (min len f.count), f.readOut (min len f.count), [])

/-- Run a sequence of interleaved operations; returns the final buffer,
the concatenated byte stream returned to the consumer and the
concatenated byte stream accepted from the producer. -/
def runOps (f : Fifo) : List FifoOp → Fifo × List ℕ × List ℕ
  | [] => (f, [], [])
  | op :: rest =>
      ((runOps (stepOp f op).1 rest).1,
       (stepOp f op).2.1 ++ (runOps (stepOp f op).1 rest).2.1,
       (stepOp f op).2.2 ++ (runOps (stepOp f op).1 rest).2.2)

/-! ## The audio output engine

`AudioOutput` with the PortAudio backend (`gui/audiooutput.cpp`,
`HAVE_PORTAUDIO` branch).  The playback state is the two-state machine of
the PortAudio branch (`Muted`/`Playing`); the request flags are the
bitmask `m_cbRequest` with bits Mute, Stop, Restart (the `Request` enum
lives in the missing `audiofifo.h` and is modelled from the spec as the
flag set `{None, Mute, Stop, Restart}`). -/

inductive PlaybackState where
  | Muted
  | Playing
deriving DecidableEq, Repr

/-- Modelled from the spec: the asynchronous request flag bits of
`m_cbRequest` (`Request::Mute | Request::Stop | Request::Restart`); the
enum itself is declared in the missing `audiofifo.h`. -/
structure Request where
  mute : Bool
  stop : Bool
  restart : Bool
deriving DecidableEq, Repr

/-- `Request::None`: no bit set. -/
def Request.noReq : Request := ⟨false, false, false⟩

/-- `audioFifo_t`: the byte ring buffer together with its stream format
tag (`sampleRate`, `numChannels`), read by `AudioOutput::start`.
Modelled from the spec for the missing `audiofifo.h`, matching the
`ComplexFifo` layout of `inputdevice.h` plus the format fields the spec
describes. -/
structure AudioFifoT where
  fifo : Fifo
  sampleRate : ℕ
  numChannels : ℕ
deriving DecidableEq, Repr

/-- The mutable state of `AudioOutput` (PortAudio backend) that the
callback and the control functions touch: stream parameters, the volume,
the playback state, the request bits and the input FIFO
(`m_inFifoPtr`, dereferenced).  `streamSampleRate`/`streamNumChannels`
record the exact parameters the open PortAudio stream was created with
(`Pa_OpenDefaultStream` arguments). -/
structure AudioOutputState where
  sampleRate_kHz : ℕ
  numChannels : ℕ
  bytesPerFrame : ℕ
  bufferFrames : ℕ
  streamSampleRate : ℕ
  streamNumChannels : ℕ
  linearVolume : ℚ
  playbackState : PlaybackState
  cbRequest : Request
  inFifo : Fifo
deriving DecidableEq, Repr

/-- Return value of the PortAudio callback. -/
inductive PaRet where
  | paContinue
  | paComplete
deriving DecidableEq, Repr

/-- What the callback wrote into the hardware output buffer.  `silence`
is a `memset` of zero bytes; the other constructors carry the raw bytes
copied out of the FIFO, to be reinterpreted as int16 samples: `playData`
is the Playing steady path (volume scaling per `scaleSamples`),
`unmuteData`/`muteData` additionally apply the unmute/mute exponential
ramp over the given number of frames (`muteData` zero-fills `padBytes`
bytes after the ramped data). -/
inductive CbOutput where
  | silence (nBytes : ℕ)
  | playData (bytes : List ℕ)
  | unmuteData (bytes : List ℕ) (nSamples : ℕ)
  | muteData (bytes : List ℕ) (nSamples : ℕ) (padBytes : ℕ)
deriving DecidableEq, Repr

/-- Result of one callback invocation. -/
structure CbResult where
  outState : AudioOutputState
  output : CbOutput
  ret : PaRet
deriving DecidableEq, Repr

/-- `AudioOutput::portAudioCbPrivate` (`gui/audiooutput.cpp` lines
226-628), one invocation with `nBufferFrames` requested frames.

* Muted, `count > 6*bytesToRead`, some request pending: zero output, the
  FIFO is drained by `bytesToRead` bytes
  (`tail = (tail + bytesToRead) % AUDIO_FIFO_SIZE`), `paComplete` iff
  Stop or Restart is pending (lines 244-262).
* Muted, `count > 6*bytesToRead`, no request: `bytesToRead` bytes are
  read (volume-scaled) and the unmute ramp is applied over
  `nBufferFrames` frames; the state becomes Playing (lines 265-351,
  574-595).
* Muted otherwise: zero output, FIFO untouched, `paComplete` iff Stop or
  Restart is pending (lines 352-364).
* Playing, `count < bytesToRead`, `count < sampleRate_kHz*bytesPerFrame`:
  hard mute - zero output, FIFO untouched, state Muted, `paContinue`
  (lines 371-380).
* Playing, `count < bytesToRead` otherwise: the `count` available bytes
  are read (volume-scaled), the mute ramp covers
  `availableSamples = count / bytesPerFrame` frames, the rest is
  zero-filled; `request` is overwritten with `Request::Mute` (line 472),
  so the final Stop/Restart check fails and the callback continues
  (lines 382-473, 596-627).
* Playing, `count ≥ bytesToRead`: `bytesToRead` bytes are read
  (volume-scaled); with no request pending the state stays Playing,
  otherwise the mute ramp is applied over `nBufferFrames` frames, the
  state becomes Muted and `paComplete` is returned iff Stop or Restart
  is pending (lines 474-567, 596-627). -/
def portAudioCbPrivate (s : AudioOutputState) (nBufferFrames : ℕ) : CbResult :=
  -- count = m_inFifoPtr->count, bytesToRead = m_bytesPerFrame * nBufferFrames,
  -- request = m_cbRequest, written out at each use.
  match s.playbackState with
  | .Muted =>
    if 6 * (s.bytesPerFrame * nBufferFrames) < s.inFifo.count then
      if s.cbRequest ≠ Request.noReq then
        { outState := { s with inFifo := { s.inFifo with
            tail := (s.inFifo.tail + s.bytesPerFrame * nBufferFrames) % s.inFifo.capacity,
            count := s.inFifo.count - s.bytesPerFrame * nBufferFrames } },
          output := .silence (s.bytesPerFrame * nBufferFrames),
          ret := if s.cbRequest.stop || s.cbRequest.restart then .paComplete else .paContinue }
      else
        { outState := { s with
            inFifo := s.inFifo.readAdvance (s.bytesPerFrame * nBufferFrames),
            playbackState := .Playing },
          output := .unmuteData (s.inFifo.readOut (s.bytesPerFrame * nBufferFrames)) nBufferFrames,
          ret := .paContinue }
    else
      { outState := s,
        output := .silence (s.bytesPerFrame * nBufferFrames),
        ret := if s.cbRequest.stop || s.cbRequest.restart then .paComplete else .paContinue }
  | .Playing =>
    if s.inFifo.count < s.bytesPerFrame * nBufferFrames then
      if s.inFifo.count < s.sampleRate_kHz * s.bytesPerFrame then
        { outState := { s with playbackState := .Muted },
          output := .silence (s.bytesPerFrame * nBufferFrames),
          ret := .paContinue }
      else
        { outState := { s with inFifo := s.inFifo.readAdvance s.inFifo.count,
                               playbackState := .Muted },
          output := .muteData (s.inFifo.readOut s.inFifo.count)
                      (s.inFifo.count / s.bytesPerFrame)
                      (s.bytesPerFrame * nBufferFrames - s.inFifo.count),
          ret := .paContinue }
    else
      if s.cbRequest = Request.noReq then
        { outState := { s with
            inFifo := s.inFifo.readAdvance (s.bytesPerFrame * nBufferFrames) },
          output := .playData (s.inFifo.readOut (s.bytesPerFrame * nBufferFrames)),
          ret := .paContinue }
      else
        { outState := { s with
            inFifo := s.inFifo.readAdvance (s.bytesPerFrame * nBufferFrames),
            playbackState := .Muted },
          output := .muteData (s.inFifo.readOut (s.bytesPerFrame * nBufferFrames)) nBufferFrames 0,
          ret := if s.cbRequest.stop || s.cbRequest.restart then .paComplete else .paContinue }

/-- `AudioOutput::start` (`gui/audiooutput.cpp` lines 89-165): if the
buffer's format tag differs from the current stream parameters at
kHz/channel granularity (`isNewStreamParams`), the stream is closed and
reopened via `Pa_OpenDefaultStream` with the buffer's exact sample rate
and channel count, and derived fields are recomputed; otherwise the
existing stream is merely restarted.  In both cases the FIFO pointer is
taken over, the playback state is set to Muted and the Stop and Restart
request bits are cleared (lines 155-157), leaving the Mute bit as is. -/
def AudioOutput.start (s : AudioOutputState) (buffer : AudioFifoT) : AudioOutputState :=
  let sRate := buffer.sampleRate
  let numCh := buffer.numChannels
  let s1 :=
    if s.sampleRate_kHz ≠ sRate / 1000 ∨ s.numChannels ≠ numCh then
      { s with sampleRate_kHz := sRate / 1000,
               numChannels := numCh,
               bytesPerFrame := numCh * 2,
               bufferFrames := AUDIOOUTPUT_FADE_TIME_MS * (sRate / 1000),
               streamSampleRate := sRate,
               streamNumChannels := numCh }
    else s
  { s1 with inFifo := buffer.fifo,
            playbackState := .Muted,
            cbRequest := { s1.cbRequest with stop := false, restart := false } }

/-- `AudioOutput::onStreamFinished` (`gui/audiooutput.cpp` lines
635-689), restart handling: when the Restart bit is set the engine calls
`start` on the FIFO stored by `AudioOutput::restart`
(`m_restartFifoPtr`); otherwise (outside the Windows hotplug special
case) nothing happens. -/
def onStreamFinished (s : AudioOutputState) (restartFifo : AudioFifoT) : AudioOutputState :=
  if s.cbRequest.restart then AudioOutput.start s restartFifo else s

/-! ## Sample-level arithmetic of the callback

The data paths of the callback reinterpret the copied bytes as int16
samples.  Volume scaling and the fade ramps are specified here on the
sample view. -/

/-- `std::lroundf` on an exact rational value: round to nearest, ties
away from zero. -/
def lroundQ (x : ℚ) : ℤ := if 0 ≤ x then ⌊x + 1 / 2⌋ else ⌈x - 1 / 2⌉

/-- The per-sample volume scaling of every data path of
`AudioOutput::portAudioCbPrivate` (e.g. lines 526-551): when
`volume > 0.9` the bytes are copied verbatim (`memcpy`); otherwise each
int16 sample is multiplied by the volume and rounded
(`int16_t(std::lroundf(volume * *inDataPtr++))`, with the
`AUDIOOUTPUT_PORTAUDIO_VOLUME_ROUND` rounding variant, which is the
behaviour the spec describes as multiply-and-round). -/
def scaleSamples (volume : ℚ) (xs : List ℤ) : List ℤ :=
  if 9 / 10 < volume then xs
  else xs.map fun x => lroundQ (volume * (x : ℚ))

/-- `m_muteFactor` as computed by `AudioOutput::start`
(`gui/audiooutput.cpp` line 118):
`powf(10, AUDIOOUTPUT_FADE_MIN_DB / (20.0 * AUDIOOUTPUT_FADE_TIME_MS * m_sampleRate_kHz))`,
with the float arithmetic modelled as exact real arithmetic. -/
noncomputable def muteFactorR (kHz : ℕ) : ℝ :=
  (10 : ℝ) ^ ((AUDIOOUTPUT_FADE_MIN_DB : ℝ) /
    (20 * (AUDIOOUTPUT_FADE_TIME_MS : ℝ) * (kHz : ℝ)))

/-- Gain applied to sample `n` of the unmute ramp (lines 578-589):
`gain` starts at `AUDIOOUTPUT_FADE_MIN_LIN` and is multiplied by
`coe = 2.0 - m_muteFactor` after each frame, so frame `n` is scaled by
`FADE_MIN_LIN * (2 - f)^n`. -/
noncomputable def unmuteGain (f : ℝ) (n : ℕ) : ℝ :=
  AUDIOOUTPUT_FADE_MIN_LIN * (2 - f) ^ n

/-- Mute-ramp coefficient (lines 600-604): the precomputed
`m_muteFactor`, recomputed as
`powf(10, AUDIOOUTPUT_FADE_MIN_DB / (20.0 * availableSamples))` when
fewer samples than one full fade window are available. -/
noncomputable def muteCoe (kHz avail : ℕ) : ℝ :=
  if avail < AUDIOOUTPUT_FADE_TIME_MS * kHz then
    (10 : ℝ) ^ ((AUDIOOUTPUT_FADE_MIN_DB : ℝ) / (20 * (avail : ℝ)))
  else muteFactorR kHz

/-- Gain applied to sample `n` of the mute ramp (lines 606-617): `gain`
starts at `1.0` and is multiplied by `coe` before each frame
("before by purpose"), so frame `n` is scaled by `coe^(n+1)`. -/
noncomputable def muteGain (coe : ℝ) (n : ℕ) : ℝ := coe ^ (n + 1)

/-! ## Ring buffer lemmas and claims C1, C2 -/
theorem length_overlay (buf data : List ℕ) (pos : ℕ) (h : pos + data.length ≤ buf.length) :
    (overlay buf pos data).length = buf.length := by
  simp [overlay]
  omega

theorem readOut_eq_take (f : Fifo) (len : ℕ) (hInv : f.Inv) (hlen : len ≤ f.count) :
    f.readOut len = f.contents.take len := by
  obtain ⟨hB, hc, ht, hh, hdisj⟩ := hInv
  unfold Fifo.readOut Fifo.contents readRange
  have hld : (f.buffer.drop f.tail).length = f.capacity - f.tail := by simp [hB]
  by_cases hw : f.capacity - f.tail < len
  · rw [if_pos hw]
    have h1 : (f.buffer.drop f.tail).take (f.capacity - f.tail) = f.buffer.drop f.tail :=
      List.take_of_length_le (by omega)
    have h2 : ((f.buffer.drop f.tail ++ f.buffer.take f.tail).take f.count).take len
        = (f.buffer.drop f.tail ++ f.buffer.take f.tail).take len := by
      rw [List.take_take, min_eq_left hlen]
    have h3 : (f.buffer.drop f.tail ++ f.buffer.take f.tail).take len
        = (f.buffer.drop f.tail).take len
          ++ (f.buffer.take f.tail).take (len - (f.buffer.drop f.tail).length) :=
      List.take_append_eq_append_take
    have h4 : (f.buffer.drop f.tail).take len = f.buffer.drop f.tail :=
      List.take_of_length_le (by omega)
    have h5 : (f.buffer.take f.tail).take (len - (f.buffer.drop f.tail).length)
        = f.buffer.take (len - (f.capacity - f.tail)) := by
      rw [hld, List.take_take, min_eq_left (by omega)]
    rw [h1, h2, h3, h4, h5, List.drop_zero]
  · rw [if_neg hw]
    rw [List.take_take, min_eq_left hlen]
    rw [List.take_append_of_le_length (by omega)]

theorem readAdvance_contents (f : Fifo) (len : ℕ) (hInv : f.Inv) (hlen : len ≤ f.count) :
    (f.readAdvance len).contents = f.contents.drop len := by
  obtain ⟨hB, hc, ht, hh, hdisj⟩ := hInv
  unfold Fifo.readAdvance
  have hld : (f.buffer.drop f.tail).length = f.capacity - f.tail := by simp [hB]
  by_cases hw : f.capacity - f.tail < len
  · rw [if_pos hw]
    show (f.buffer.drop (len - (f.capacity - f.tail))
          ++ f.buffer.take (len - (f.capacity - f.tail))).take (f.count - len)
        = ((f.buffer.drop f.tail ++ f.buffer.take f.tail).take f.count).drop len
    have h1 : ((f.buffer.drop f.tail ++ f.buffer.take f.tail).take f.count).drop len
        = ((f.buffer.drop f.tail ++ f.buffer.take f.tail).drop len).take (f.count - len) :=
      List.drop_take ..
    have h2 : (f.buffer.drop f.tail ++ f.buffer.take f.tail).drop len
        = (f.buffer.take f.tail).drop (len - (f.capacity - f.tail)) := by
      rw [List.drop_append_eq_append_drop, List.drop_of_length_le (by omega), hld,
        List.nil_append]
    have h3 : (f.buffer.take f.tail).drop (len - (f.capacity - f.tail))
        = (f.buffer.drop (len - (f.capacity - f.tail))).take
            (f.tail - (len - (f.capacity - f.tail))) :=
      List.drop_take ..
    have h4 : ((f.buffer.drop (len - (f.capacity - f.tail))).take
            (f.tail - (len - (f.capacity - f.tail)))).take (f.count - len)
        = (f.buffer.drop (len - (f.capacity - f.tail))).take (f.count - len) := by
      rw [List.take_take, min_eq_left (by omega)]
    have h5 : (f.buffer.drop (len - (f.capacity - f.tail))
          ++ f.buffer.take (len - (f.capacity - f.tail))).take (f.count - len)
        = (f.buffer.drop (len - (f.capacity - f.tail))).take (f.count - len) :=
      List.take_append_of_le_length (by simp [hB]; omega)
    rw [h1, h2, h3, h4, h5]
  · rw [if_neg hw]
    show (f.buffer.drop (f.tail + len) ++ f.buffer.take (f.tail + len)).take (f.count - len)
        = ((f.buffer.drop f.tail ++ f.buffer.take f.tail).take f.count).drop len
    have h1 : ((f.buffer.drop f.tail ++ f.buffer.take f.tail).take f.count).drop len
        = ((f.buffer.drop f.tail ++ f.buffer.take f.tail).drop len).take (f.count - len) :=
      List.drop_take ..
    have h2 : (f.buffer.drop f.tail ++ f.buffer.take f.tail).drop len
        = f.buffer.drop (f.tail + len) ++ f.buffer.take f.tail := by
      rw [List.drop_append_of_le_length (by omega), List.drop_drop]
    have h3 : (f.buffer.drop (f.tail + len) ++ f.buffer.take f.tail).take (f.count - len)
        = (f.buffer.drop (f.tail + len)).take (f.count - len)
          ++ (f.buffer.take f.tail).take
              ((f.count - len) - (f.buffer.drop (f.tail + len)).length) :=
      List.take_append_eq_append_take
    have h4 : (f.buffer.drop (f.tail + len) ++ f.buffer.take (f.tail + len)).take (f.count - len)
        = (f.buffer.drop (f.tail + len)).take (f.count - len)
          ++ (f.buffer.take (f.tail + len)).take
              ((f.count - len) - (f.buffer.drop (f.tail + len)).length) :=
      List.take_append_eq_append_take
    have h5 : (f.buffer.take (f.tail + len)).take
              ((f.count - len) - (f.buffer.drop (f.tail + len)).length)
        = (f.buffer.take f.tail).take
              ((f.count - len) - (f.buffer.drop (f.tail + len)).length) := by
      rw [List.take_take, List.take_take]
      congr 1
      simp only [List.length_drop, hB]
      omega
    rw [h1, h2, h3, h4, h5]

theorem readAdvance_inv (f : Fifo) (len : ℕ) (hInv : f.Inv) (hlen : len ≤ f.count) :
    (f.readAdvance len).Inv := by
  obtain ⟨hB, hc, ht, hh, hdisj⟩ := hInv
  unfold Fifo.readAdvance Fifo.Inv
  by_cases hw : f.capacity - f.tail < len
  · rw [if_pos hw]
    dsimp only
    exact ⟨hB, by omega, by omega, by omega, by omega⟩
  · rw [if_neg hw]
    dsimp only
    exact ⟨hB, by omega, by omega, by omega, by omega⟩



theorem contents_write_nowrap_d1 (B w : List ℕ) (t c : ℕ)
    (hfit : t + c + w.length ≤ B.length) :
    ((overlay B (t + c) w).drop t ++ (overlay B (t + c) w).take t).take (c + w.length)
      = (B.drop t ++ B.take t).take c ++ w := by
  have d1 : (overlay B (t + c) w).drop t
      = ((B.drop t).take c ++ w) ++ B.drop (t + c + w.length) := by
    unfold overlay
    rw [List.drop_append_eq_append_drop, List.drop_append_eq_append_drop]
    rw [List.length_take]
    rw [show t - min (t + c) B.length = 0 from by omega]
    rw [List.drop_zero]
    rw [List.length_append, List.length_take]
    rw [show t - (min (t + c) B.length + w.length) = 0 from by omega]
    rw [List.drop_zero]
    rw [List.drop_take]
    rw [show t + c - t = c from by omega]
  have d3 : (B.drop t ++ B.take t).take c = (B.drop t).take c :=
    List.take_append_of_le_length (by simp; omega)
  rw [d3]
  calc ((overlay B (t + c) w).drop t ++ (overlay B (t + c) w).take t).take (c + w.length)
      = ((overlay B (t + c) w).drop t).take (c + w.length) := by
        apply List.take_append_of_le_length
        rw [d1]
        simp only [List.length_append, List.length_take, List.length_drop]
        omega
    _ = (((B.drop t).take c ++ w) ++ B.drop (t + c + w.length)).take (c + w.length) := by
        rw [d1]
    _ = ((B.drop t).take c ++ w).take (c + w.length) := by
        apply List.take_append_of_le_length
        simp only [List.length_append, List.length_take, List.length_drop]
        omega
    _ = (B.drop t).take c ++ w := by
        apply List.take_of_length_le
        simp only [List.length_append, List.length_take, List.length_drop]
        omega



theorem contents_write_nowrap_d2 (B w : List ℕ) (t c hd : ℕ)
    (hhd : t + c = hd + B.length) (hfit : hd + w.length ≤ t) (ht : t ≤ B.length) :
    ((overlay B hd w).drop t ++ (overlay B hd w).take t).take (c + w.length)
      = (B.drop t ++ B.take t).take c ++ w := by
  have hdd : overlay B hd w = (B.take hd ++ w) ++ B.drop (hd + w.length) := rfl
  have e1 : (overlay B hd w).drop t = B.drop t := by
    rw [hdd, List.drop_append_eq_append_drop, List.drop_append_eq_append_drop]
    rw [List.drop_of_length_le (show (B.take hd).length ≤ t from by
      simp only [List.length_take]; omega)]
    rw [List.drop_of_length_le (show w.length ≤ t - (B.take hd).length from by
      simp only [List.length_take]; omega)]
    rw [List.drop_drop, List.nil_append, List.nil_append]
    congr 1
    simp only [List.length_append, List.length_take]
    omega
  have e2 : (overlay B hd w).take t
      = (B.take hd ++ w) ++ (B.drop (hd + w.length)).take (t - (hd + w.length)) := by
    rw [hdd, List.take_append_eq_append_take]
    rw [List.take_of_length_le (show (B.take hd ++ w).length ≤ t from by
      simp only [List.length_append, List.length_take]; omega)]
    congr 2
    simp only [List.length_append, List.length_take]
    omega
  have e3 : (B.drop t ++ B.take t).take c = B.drop t ++ B.take hd := by
    rw [List.take_append_eq_append_take]
    rw [List.take_of_length_le (show (B.drop t).length ≤ c from by
      simp only [List.length_drop]; omega)]
    congr 1
    rw [List.take_take]
    congr 1
    simp only [List.length_drop]
    omega
  rw [e1, e2, e3]
  rw [List.take_append_eq_append_take]
  rw [List.take_of_length_le (show (B.drop t).length ≤ c + w.length from by
    simp only [List.length_drop]; omega)]
  rw [show c + w.length - (B.drop t).length = hd + w.length from by
    simp only [List.length_drop]; omega]
  rw [List.take_append_of_le_length (show hd + w.length ≤ (B.take hd ++ w).length from by
    simp only [List.length_append, List.length_take]; omega)]
  rw [List.take_of_length_le (show (B.take hd ++ w).length ≤ hd + w.length from by
    simp only [List.length_append, List.length_take]; omega)]
  rw [List.append_assoc]



theorem contents_write_wrap_d1 (B w : List ℕ) (t c : ℕ)
    (hwrap : B.length - (t + c) < w.length) (hacc : w.length ≤ B.length - c)
    (hhd : t + c ≤ B.length) :
    ((overlay (overlay B (t + c) (w.take (B.length - (t + c)))) 0
        (w.drop (B.length - (t + c)))).drop t
      ++ (overlay (overlay B (t + c) (w.take (B.length - (t + c)))) 0
        (w.drop (B.length - (t + c)))).take t).take (c + w.length)
      = (B.drop t ++ B.take t).take c ++ w := by
  have hm : w.length - (B.length - (t + c)) ≤ t := by omega
  have hC : overlay B (t + c) (w.take (B.length - (t + c)))
      = B.take (t + c) ++ w.take (B.length - (t + c)) := by
    unfold overlay
    rw [List.drop_of_length_le (show B.length ≤ (t + c) + (w.take (B.length - (t + c))).length
      from by simp only [List.length_take]; omega)]
    rw [List.append_nil]
  have hX1 : (B.take (t + c)).drop (w.length - (B.length - (t + c)))
      = (B.drop (w.length - (B.length - (t + c)))).take
          ((t + c) - (w.length - (B.length - (t + c)))) :=
    List.drop_take ..
  have hB2 : overlay (overlay B (t + c) (w.take (B.length - (t + c)))) 0
        (w.drop (B.length - (t + c)))
      = w.drop (B.length - (t + c))
        ++ ((B.drop (w.length - (B.length - (t + c)))).take
              ((t + c) - (w.length - (B.length - (t + c))))
            ++ w.take (B.length - (t + c))) := by
    rw [hC]
    unfold overlay
    rw [List.take_zero, List.nil_append, Nat.zero_add, List.length_drop]
    rw [List.drop_append_eq_append_drop]
    rw [hX1]
    rw [show w.length - (B.length - (t + c)) - (B.take (t + c)).length = 0 from by
      simp only [List.length_take]; omega]
    rw [List.drop_zero]
  have hdt : (overlay (overlay B (t + c) (w.take (B.length - (t + c)))) 0
        (w.drop (B.length - (t + c)))).drop t
      = (B.drop t).take c ++ w.take (B.length - (t + c)) := by
    rw [hB2, List.drop_append_eq_append_drop]
    rw [List.drop_of_length_le (show (w.drop (B.length - (t + c))).length ≤ t from by
      simp only [List.length_drop]; omega)]
    rw [List.nil_append, List.length_drop]
    rw [List.drop_append_eq_append_drop]
    rw [List.drop_take, List.drop_drop]
    rw [show w.length - (B.length - (t + c)) + (t - (w.length - (B.length - (t + c)))) = t
      from by omega]
    rw [show (t + c) - (w.length - (B.length - (t + c))) - (t - (w.length - (B.length - (t + c)))) = c
      from by omega]
    rw [show t - (w.length - (B.length - (t + c))) -
          ((B.drop (w.length - (B.length - (t + c)))).take
            ((t + c) - (w.length - (B.length - (t + c))))).length = 0 from by
      simp only [List.length_take, List.length_drop]; omega]
    rw [List.drop_zero]
  have htk : (overlay (overlay B (t + c) (w.take (B.length - (t + c)))) 0
        (w.drop (B.length - (t + c)))).take t
      = w.drop (B.length - (t + c))
        ++ (B.drop (w.length - (B.length - (t + c)))).take
            (t - (w.length - (B.length - (t + c)))) := by
    rw [hB2, List.take_append_eq_append_take]
    rw [List.take_of_length_le (show (w.drop (B.length - (t + c))).length ≤ t from by
      simp only [List.length_drop]; omega)]
    rw [List.length_drop]
    rw [List.take_append_eq_append_take]
    rw [List.take_take]
    rw [show min (t - (w.length - (B.length - (t + c))))
          ((t + c) - (w.length - (B.length - (t + c)))) =
        t - (w.length - (B.length - (t + c))) from by omega]
    rw [show t - (w.length - (B.length - (t + c))) -
          ((B.drop (w.length - (B.length - (t + c)))).take
            ((t + c) - (w.length - (B.length - (t + c))))).length = 0 from by
      simp only [List.length_take, List.length_drop]; omega]
    rw [List.take_zero, List.append_nil]
  rw [hdt, htk]
  rw [List.take_append_eq_append_take]
  rw [List.take_of_length_le (show ((B.drop t).take c ++ w.take (B.length - (t + c))).length ≤
      c + w.length from by
    simp only [List.length_append, List.length_take, List.length_drop]; omega)]
  rw [show c + w.length - ((B.drop t).take c ++ w.take (B.length - (t + c))).length =
      w.length - (B.length - (t + c)) from by
    simp only [List.length_append, List.length_take, List.length_drop]; omega]
  rw [List.take_append_eq_append_take]
  rw [List.take_of_length_le (show (w.drop (B.length - (t + c))).length ≤
      w.length - (B.length - (t + c)) from by simp only [List.length_drop]; omega)]
  rw [show w.length - (B.length - (t + c)) - (w.drop (B.length - (t + c))).length = 0 from by
    simp only [List.length_drop]; omega]
  rw [List.take_zero, List.append_nil]
  rw [List.append_assoc, List.take_append_drop]
  rw [List.take_append_of_le_length (show c ≤ (B.drop t).length from by
    simp only [List.length_drop]; omega)]



theorem write_accepted_contents (f : Fifo) (chunk : List ℕ) (hInv : f.Inv)
    (hlen : chunk.length ≤ f.capacity - f.count) :
    (f.write chunk).2 = true ∧ ((f.write chunk).1).contents = f.contents ++ chunk := by
  obtain ⟨hB, hc, ht, hh, hdisj⟩ := hInv
  unfold Fifo.write
  rw [if_neg (by omega)]
  by_cases hwr : chunk.length ≤ f.capacity - f.head
  · rw [if_pos hwr]
    refine ⟨rfl, ?_⟩
    unfold Fifo.contents
    dsimp only
    rcases hdisj with hd | hd | hd
    · rw [hd]
      exact contents_write_nowrap_d1 f.buffer chunk f.tail f.count (by omega)
    · exact contents_write_nowrap_d2 f.buffer chunk f.tail f.count f.head
        (by omega) (by omega) (by omega)
    · obtain ⟨ht0, hc0, hh0⟩ := hd
      have hL0 : chunk = [] := List.eq_nil_of_length_eq_zero (by omega)
      subst hL0
      rw [ht0, hc0, hh0]
      unfold overlay
      rw [← hB]
      simp
  · rw [if_neg hwr]
    refine ⟨rfl, ?_⟩
    unfold Fifo.contents
    dsimp only
    rcases hdisj with hd | hd | hd
    · rw [← hB, hd]
      exact contents_write_wrap_d1 f.buffer chunk f.tail f.count
        (by omega) (by omega) (by omega)
    · exfalso; omega
    · obtain ⟨ht0, hc0, hh0⟩ := hd
      rw [ht0, hc0, hh0, Nat.sub_self]
      have e1 : overlay f.buffer f.capacity [] = f.buffer := by
        unfold overlay
        rw [← hB]
        simp
      have e2 : overlay f.buffer 0 chunk = chunk ++ f.buffer.drop chunk.length := by
        unfold overlay
        simp
      simp only [List.take_zero, List.drop_zero, List.append_nil, List.nil_append, Nat.zero_add]
      rw [e1, e2]
      rw [List.take_append_of_le_length (le_refl chunk.length)]
      rw [List.take_length]

theorem write_accepted_inv (f : Fifo) (chunk : List ℕ) (hInv : f.Inv)
    (hlen : chunk.length ≤ f.capacity - f.count) :
    ((f.write chunk).1).Inv := by
  obtain ⟨hB, hc, ht, hh, hdisj⟩ := hInv
  unfold Fifo.write
  rw [if_neg (by omega)]
  by_cases hwr : chunk.length ≤ f.capacity - f.head
  · rw [if_pos hwr]
    refine ⟨?_, by dsimp only; omega, by dsimp only; omega, by dsimp only; omega,
      by dsimp only; omega⟩
    dsimp only
    rw [length_overlay f.buffer chunk f.head (by omega), hB]
  · rw [if_neg hwr]
    have l1 : (overlay f.buffer f.head (chunk.take (f.capacity - f.head))).length
        = f.buffer.length :=
      length_overlay _ _ _ (by simp only [List.length_take]; omega)
    refine ⟨?_, by dsimp only; omega, by dsimp only; omega, by dsimp only; omega,
      by dsimp only; omega⟩
    dsimp only
    rw [length_overlay _ _ _ (by rw [l1]; simp only [List.length_drop]; omega), l1, hB]

theorem write_dropped (f : Fifo) (chunk : List ℕ)
    (h : f.capacity - f.count < chunk.length) :
    f.write chunk = (f, false) := by
  unfold Fifo.write
  rw [if_pos h]




theorem write_tail_eq (f : Fifo) (chunk : List ℕ) :
    ((f.write chunk).1).tail = f.tail := by
  unfold Fifo.write
  by_cases h : f.capacity - f.count < chunk.length
  · rw [if_pos h]
  · rw [if_neg h]
    by_cases h2 : chunk.length ≤ f.capacity - f.head
    · rw [if_pos h2]
    · rw [if_neg h2]

theorem stepOp_spec (f : Fifo) (op : FifoOp) (hInv : f.Inv) :
    (stepOp f op).1.Inv ∧
    (stepOp f op).2.1 ++ (stepOp f op).1.contents = f.contents ++ (stepOp f op).2.2 := by
  cases op with
  | write chunk =>
    simp only [stepOp]
    by_cases h : f.capacity - f.count < chunk.length
    · rw [write_dropped f chunk h]
      exact ⟨hInv, by simp⟩
    · have hle : chunk.length ≤ f.capacity - f.count := by omega
      obtain ⟨hacc, hcont⟩ := write_accepted_contents f chunk hInv hle
      have hinv2 := write_accepted_inv f chunk hInv hle
      rw [hacc, hcont]
      exact ⟨hinv2, by simp⟩
  | read len =>
    simp only [stepOp]
    have hk : min len f.count ≤ f.count := min_le_right ..
    refine ⟨readAdvance_inv f _ hInv hk, ?_⟩
    rw [readOut_eq_take f _ hInv hk, readAdvance_contents f _ hInv hk]
    rw [List.take_append_drop]
    simp

theorem runOps_spec (ops : List FifoOp) (f : Fifo) (hInv : f.Inv) :
    (runOps f ops).1.Inv ∧
    (runOps f ops).2.1 ++ (runOps f ops).1.contents
      = f.contents ++ (runOps f ops).2.2 := by
  induction ops generalizing f with
  | nil =>
    simp only [runOps]
    exact ⟨hInv, by simp⟩
  | cons op rest ih =>
    simp only [runOps]
    obtain ⟨h1, h2⟩ := stepOp_spec f op hInv
    obtain ⟨h3, h4⟩ := ih (stepOp f op).1 h1
    refine ⟨h3, ?_⟩
    rw [List.append_assoc, h4, ← List.append_assoc, h2, List.append_assoc]



/-- C1: for every sequence of interleaved producer writes and consumer
reads (the sequential interleaving the count-mutex discipline guarantees),
starting from any state satisfying the structural invariant, the invariant
is preserved — in particular `0 ≤ count ≤ capacity` holds in every
reachable state, since every intermediate state is the final state of a
prefix of the operation sequence — and the byte stream returned to the
consumer followed by the bytes still stored equals the initially stored
bytes followed by the accepted producer chunks, in order: no byte is
duplicated or lost except for the chunks explicitly dropped on
overflow (which are exactly the ones missing from the accepted
stream). -/
theorem ringBuffer_stream_correct (f : Fifo) (ops : List FifoOp) (hInv : f.Inv) :
    (runOps f ops).1.Inv ∧ (runOps f ops).1.count ≤ (runOps f ops).1.capacity ∧
    (runOps f ops).2.1 ++ (runOps f ops).1.contents
      = f.contents ++ (runOps f ops).2.2 := by
  obtain ⟨h1, h2⟩ := runOps_spec ops f hInv
  exact ⟨h1, h1.2.1, h2⟩

/-- Witness for C1's theorem: a concrete five-operation run on a
4-byte buffer with a wrapping write, a dropped write and a clamped
read. -/
theorem ringBuffer_stream_correct_witness :
    (runOps ⟨4, [0, 0, 0, 0], 0, 0, 0⟩
        [.write [1, 2, 3], .read 2, .write [9, 8, 7], .write [5], .read 4]).1.Inv ∧
    (runOps ⟨4, [0, 0, 0, 0], 0, 0, 0⟩
        [.write [1, 2, 3], .read 2, .write [9, 8, 7], .write [5], .read 4]).1.count ≤
      (runOps ⟨4, [0, 0, 0, 0], 0, 0, 0⟩
        [.write [1, 2, 3], .read 2, .write [9, 8, 7], .write [5], .read 4]).1.capacity ∧
    (runOps ⟨4, [0, 0, 0, 0], 0, 0, 0⟩
        [.write [1, 2, 3], .read 2, .write [9, 8, 7], .write [5], .read 4]).2.1 ++
      (runOps ⟨4, [0, 0, 0, 0], 0, 0, 0⟩
        [.write [1, 2, 3], .read 2, .write [9, 8, 7], .write [5], .read 4]).1.contents
      = (⟨4, [0, 0, 0, 0], 0, 0, 0⟩ : Fifo).contents ++
        (runOps ⟨4, [0, 0, 0, 0], 0, 0, 0⟩
        [.write [1, 2, 3], .read 2, .write [9, 8, 7], .write [5], .read 4]).2.2 :=
  ringBuffer_stream_correct ⟨4, [0, 0, 0, 0], 0, 0, 0⟩
    [.write [1, 2, 3], .read 2, .write [9, 8, 7], .write [5], .read 4] (by decide)


/-- C2: a producer write whose length exceeds the free space
`capacity - count` drops the entire chunk and leaves the buffer
(including its byte array, `head` and `count`) completely unchanged;
an accepted write appends exactly the whole chunk after the currently
stored bytes — so no write stores only a prefix of a chunk and no write
overwrites bytes not yet consumed — and never moves `tail`. -/
theorem write_drop_or_whole (f : Fifo) (chunk : List ℕ) (hInv : f.Inv) :
    (f.capacity - f.count < chunk.length → f.write chunk = (f, false)) ∧
    (chunk.length ≤ f.capacity - f.count →
      (f.write chunk).2 = true ∧
      ((f.write chunk).1).contents = f.contents ++ chunk ∧
      ((f.write chunk).1).tail = f.tail) := by
  refine ⟨write_dropped f chunk, fun h => ?_⟩
  obtain ⟨ha, hc⟩ := write_accepted_contents f chunk hInv h
  exact ⟨ha, hc, write_tail_eq f chunk⟩

/-- Witness for C2's theorem at a 4-byte buffer holding 2 bytes with a
3-byte chunk (dropped: only 2 bytes free). -/
theorem write_drop_or_whole_witness :
    ((⟨4, [9, 9, 9, 9], 3, 1, 2⟩ : Fifo).capacity -
        (⟨4, [9, 9, 9, 9], 3, 1, 2⟩ : Fifo).count < [5, 6, 7].length →
      (⟨4, [9, 9, 9, 9], 3, 1, 2⟩ : Fifo).write [5, 6, 7] = (⟨4, [9, 9, 9, 9], 3, 1, 2⟩, false)) ∧
    ([5, 6, 7].length ≤ (⟨4, [9, 9, 9, 9], 3, 1, 2⟩ : Fifo).capacity -
        (⟨4, [9, 9, 9, 9], 3, 1, 2⟩ : Fifo).count →
      ((⟨4, [9, 9, 9, 9], 3, 1, 2⟩ : Fifo).write [5, 6, 7]).2 = true ∧
      (((⟨4, [9, 9, 9, 9], 3, 1, 2⟩ : Fifo).write [5, 6, 7]).1).contents =
        (⟨4, [9, 9, 9, 9], 3, 1, 2⟩ : Fifo).contents ++ [5, 6, 7] ∧
      (((⟨4, [9, 9, 9, 9], 3, 1, 2⟩ : Fifo).write [5, 6, 7]).1).tail =
        (⟨4, [9, 9, 9, 9], 3, 1, 2⟩ : Fifo).tail) :=
  write_drop_or_whole ⟨4, [9, 9, 9, 9], 3, 1, 2⟩ [5, 6, 7] (by decide)


/-! ## Claim C10: effects of `start`/restart on state and request bits -/

/-- C10: starting (or restarting) the audio output always sets the
playback state to Muted and clears any pending Stop and Restart request
bits, but leaves a pending Mute request bit unchanged
(`gui/audiooutput.cpp` lines 155-157). -/
theorem start_muted_clears_stop_restart (s : AudioOutputState) (buffer : AudioFifoT) :
    (AudioOutput.start s buffer).playbackState = .Muted ∧
    (AudioOutput.start s buffer).cbRequest.stop = false ∧
    (AudioOutput.start s buffer).cbRequest.restart = false ∧
    (AudioOutput.start s buffer).cbRequest.mute = s.cbRequest.mute := by
  unfold AudioOutput.start
  by_cases h : s.sampleRate_kHz ≠ buffer.sampleRate / 1000 ∨ s.numChannels ≠ buffer.numChannels <;>
    simp [h]

/-! ## Claim C3: completion only from Muted; restart stream parameters -/

/-- C3 (amended): the callback reports completion (`paComplete`) only
with the playback state Muted in the final state; and a Restart reopens
or reuses the platform stream so that its channel count equals the new
ring buffer's channel count and its sample rate matches the new ring
buffer's sample rate at the kHz granularity used by
`isNewStreamParams` — the stream is freshly reopened with the exact new
rate only when the kHz rate or channel count actually changed. -/
theorem paComplete_only_from_muted (s : AudioOutputState) (n : ℕ)
    (e : AudioOutputState) (buf : AudioFifoT)
    (hrate : e.streamSampleRate / 1000 = e.sampleRate_kHz)
    (hch : e.streamNumChannels = e.numChannels)
    (hrestart : e.cbRequest.restart = true) :
    ((portAudioCbPrivate s n).ret = .paComplete →
      (portAudioCbPrivate s n).outState.playbackState = .Muted) ∧
    (onStreamFinished e buf).streamNumChannels = buf.numChannels ∧
    (onStreamFinished e buf).streamSampleRate / 1000 = buf.sampleRate / 1000 ∧
    (onStreamFinished e buf).sampleRate_kHz = buf.sampleRate / 1000 ∧
    (onStreamFinished e buf).numChannels = buf.numChannels := by
  refine ⟨?_, ?_⟩
  · unfold portAudioCbPrivate
    rcases hs : s.playbackState <;> simp only
    · split
      · split
        · intro _; simp [hs]
        · simp
      · intro _; simp [hs]
    · split
      · split <;> simp
      · split
        · simp
        · intro _; simp
  · unfold onStreamFinished AudioOutput.start
    rw [hrestart]
    simp only [if_true]
    by_cases h : e.sampleRate_kHz ≠ buf.sampleRate / 1000 ∨ e.numChannels ≠ buf.numChannels
    · rw [if_pos h]
      exact ⟨rfl, rfl, rfl, rfl⟩
    · rw [if_neg h]
      push_neg at h
      exact ⟨hch.trans h.2, hrate.trans h.1, h.1, h.2⟩

/-- Witness for C3's theorem at a concrete state: a Muted engine with a
pending Stop request and too little data completes with the state still
Muted, and a restart to a 32 kHz stereo buffer carries its format. -/
theorem paComplete_only_from_muted_witness :
    ((portAudioCbPrivate
        { sampleRate_kHz := 48, numChannels := 2, bytesPerFrame := 4, bufferFrames := 2880,
          streamSampleRate := 48000, streamNumChannels := 2, linearVolume := 1,
          playbackState := .Muted, cbRequest := ⟨false, true, false⟩,
          inFifo := ⟨8, [0, 0, 0, 0, 0, 0, 0, 0], 0, 0, 0⟩ } 1).ret = .paComplete →
      (portAudioCbPrivate
        { sampleRate_kHz := 48, numChannels := 2, bytesPerFrame := 4, bufferFrames := 2880,
          streamSampleRate := 48000, streamNumChannels := 2, linearVolume := 1,
          playbackState := .Muted, cbRequest := ⟨false, true, false⟩,
          inFifo := ⟨8, [0, 0, 0, 0, 0, 0, 0, 0], 0, 0, 0⟩ } 1).outState.playbackState = .Muted) ∧
    (onStreamFinished
        { sampleRate_kHz := 48, numChannels := 2, bytesPerFrame := 4, bufferFrames := 2880,
          streamSampleRate := 48000, streamNumChannels := 2, linearVolume := 1,
          playbackState := .Muted, cbRequest := ⟨false, false, true⟩,
          inFifo := ⟨8, [0, 0, 0, 0, 0, 0, 0, 0], 0, 0, 0⟩ }
        ⟨⟨8, [0, 0, 0, 0, 0, 0, 0, 0], 0, 0, 0⟩, 32000, 2⟩).streamNumChannels = 2 ∧
    (onStreamFinished
        { sampleRate_kHz := 48, numChannels := 2, bytesPerFrame := 4, bufferFrames := 2880,
          streamSampleRate := 48000, streamNumChannels := 2, linearVolume := 1,
          playbackState := .Muted, cbRequest := ⟨false, false, true⟩,
          inFifo := ⟨8, [0, 0, 0, 0, 0, 0, 0, 0], 0, 0, 0⟩ }
        ⟨⟨8, [0, 0, 0, 0, 0, 0, 0, 0], 0, 0, 0⟩, 32000, 2⟩).streamSampleRate / 1000 = 32000 / 1000 ∧
    (onStreamFinished
        { sampleRate_kHz := 48, numChannels := 2, bytesPerFrame := 4, bufferFrames := 2880,
          streamSampleRate := 48000, streamNumChannels := 2, linearVolume := 1,
          playbackState := .Muted, cbRequest := ⟨false, false, true⟩,
          inFifo := ⟨8, [0, 0, 0, 0, 0, 0, 0, 0], 0, 0, 0⟩ }
        ⟨⟨8, [0, 0, 0, 0, 0, 0, 0, 0], 0, 0, 0⟩, 32000, 2⟩).sampleRate_kHz = 32000 / 1000 ∧
    (onStreamFinished
        { sampleRate_kHz := 48, numChannels := 2, bytesPerFrame := 4, bufferFrames := 2880,
          streamSampleRate := 48000, streamNumChannels := 2, linearVolume := 1,
          playbackState := .Muted, cbRequest := ⟨false, false, true⟩,
          inFifo := ⟨8, [0, 0, 0, 0, 0, 0, 0, 0], 0, 0, 0⟩ }
        ⟨⟨8, [0, 0, 0, 0, 0, 0, 0, 0], 0, 0, 0⟩, 32000, 2⟩).numChannels = 2 := by
  exact paComplete_only_from_muted _ 1 _ _ (by decide) (by decide) (by decide)

/-- C3 counterexample to the claim as stated: with the stream open at
exactly 48000 Hz stereo and a Restart requested towards a buffer tagged
48999 Hz stereo, `isNewStreamParams` compares at kHz granularity
(`48999 / 1000 = 48`), so the stream is not reopened and keeps its old
exact sample rate 48000 ≠ 48999: the restart does not reopen the stream
with the sample rate read from the new ring buffer's format tag. -/
theorem restart_not_exact_rate :
    (onStreamFinished
        { sampleRate_kHz := 48, numChannels := 2, bytesPerFrame := 4, bufferFrames := 2880,
          streamSampleRate := 48000, streamNumChannels := 2, linearVolume := 1,
          playbackState := .Muted, cbRequest := ⟨false, false, true⟩,
          inFifo := ⟨8, [0, 0, 0, 0, 0, 0, 0, 0], 0, 0, 0⟩ }
        ⟨⟨8, [0, 0, 0, 0, 0, 0, 0, 0], 0, 0, 0⟩, 48999, 2⟩).streamSampleRate = 48000 ∧
    (48000 : ℕ) ≠ 48999 := by decide

/-! ## Claim C4: the hard-mute floor -/

/-- C4: in the Playing state with fewer buffered bytes than one
millisecond's worth of frames (`sampleRate_kHz * bytesPerFrame` bytes),
the callback zero-fills the whole output buffer, transitions to Muted in
the same invocation, consumes nothing from the FIFO and continues
(`gui/audiooutput.cpp` lines 371-380).  The hypothesis
`sampleRate_kHz ≤ n` holds for every callback of the stream the engine
opens, whose period is `AUDIOOUTPUT_FADE_TIME_MS * sampleRate_kHz`
frames (60 ms). -/
theorem hard_mute_floor (s : AudioOutputState) (n : ℕ)
    (hplay : s.playbackState = .Playing)
    (hcount : s.inFifo.count < s.sampleRate_kHz * s.bytesPerFrame)
    (hframes : s.sampleRate_kHz ≤ n) :
    (portAudioCbPrivate s n).output = .silence (s.bytesPerFrame * n) ∧
    (portAudioCbPrivate s n).outState.playbackState = .Muted ∧
    (portAudioCbPrivate s n).outState.inFifo = s.inFifo ∧
    (portAudioCbPrivate s n).ret = .paContinue := by
  have h1 : s.inFifo.count < s.bytesPerFrame * n :=
    lt_of_lt_of_le hcount (by rw [Nat.mul_comm]; exact Nat.mul_le_mul_left _ hframes)
  unfold portAudioCbPrivate
  rw [hplay]
  simp [h1, hcount]

/-- Witness for C4 at a concrete state: 1 kHz mono, 2 buffered bytes
(one frame), a 60-frame callback. -/
theorem hard_mute_floor_witness :
    (portAudioCbPrivate
        { sampleRate_kHz := 2, numChannels := 1, bytesPerFrame := 2, bufferFrames := 120,
          streamSampleRate := 2000, streamNumChannels := 1, linearVolume := 1,
          playbackState := .Playing, cbRequest := Request.noReq,
          inFifo := ⟨16, List.replicate 16 5, 2, 0, 2⟩ } 120).output = .silence 240 ∧
    (portAudioCbPrivate
        { sampleRate_kHz := 2, numChannels := 1, bytesPerFrame := 2, bufferFrames := 120,
          streamSampleRate := 2000, streamNumChannels := 1, linearVolume := 1,
          playbackState := .Playing, cbRequest := Request.noReq,
          inFifo := ⟨16, List.replicate 16 5, 2, 0, 2⟩ } 120).outState.playbackState = .Muted ∧
    (portAudioCbPrivate
        { sampleRate_kHz := 2, numChannels := 1, bytesPerFrame := 2, bufferFrames := 120,
          streamSampleRate := 2000, streamNumChannels := 1, linearVolume := 1,
          playbackState := .Playing, cbRequest := Request.noReq,
          inFifo := ⟨16, List.replicate 16 5, 2, 0, 2⟩ } 120).outState.inFifo =
      ⟨16, List.replicate 16 5, 2, 0, 2⟩ ∧
    (portAudioCbPrivate
        { sampleRate_kHz := 2, numChannels := 1, bytesPerFrame := 2, bufferFrames := 120,
          streamSampleRate := 2000, streamNumChannels := 1, linearVolume := 1,
          playbackState := .Playing, cbRequest := Request.noReq,
          inFifo := ⟨16, List.replicate 16 5, 2, 0, 2⟩ } 120).ret = .paContinue := by
  exact hard_mute_floor _ 120 (by decide) (by decide) (by decide)

/-! ## Claim C5: Muted steady behaviour -/

/-- C5 (amended): in the Muted state with the buffered byte count at or
below the high-water mark `6 * bytesToRead`, the callback outputs
silence for the full request and consumes nothing (the whole state is
unchanged); it drains `bytesToRead` bytes while outputting silence only
in the complementary case, when the count exceeds the high-water mark
and a Mute/Stop/Restart request is pending (`gui/audiooutput.cpp` lines
239-263, 352-364). -/
theorem muted_steady (s : AudioOutputState) (n : ℕ)
    (hmuted : s.playbackState = .Muted) :
    (s.inFifo.count ≤ 6 * (s.bytesPerFrame * n) →
      (portAudioCbPrivate s n).output = .silence (s.bytesPerFrame * n) ∧
      (portAudioCbPrivate s n).outState = s ∧
      (portAudioCbPrivate s n).ret =
        (if s.cbRequest.stop || s.cbRequest.restart then .paComplete else .paContinue)) ∧
    (6 * (s.bytesPerFrame * n) < s.inFifo.count → s.cbRequest ≠ Request.noReq →
      (portAudioCbPrivate s n).output = .silence (s.bytesPerFrame * n) ∧
      (portAudioCbPrivate s n).outState.inFifo.count =
        s.inFifo.count - s.bytesPerFrame * n ∧
      (portAudioCbPrivate s n).outState.inFifo.tail =
        (s.inFifo.tail + s.bytesPerFrame * n) % s.inFifo.capacity ∧
      (portAudioCbPrivate s n).outState.playbackState = .Muted ∧
      (portAudioCbPrivate s n).ret =
        (if s.cbRequest.stop || s.cbRequest.restart then .paComplete else .paContinue)) := by
  constructor
  · intro hle
    unfold portAudioCbPrivate
    rw [hmuted]
    rw [if_neg (by omega)]
    exact ⟨rfl, rfl, rfl⟩
  · intro hgt hreq
    unfold portAudioCbPrivate
    rw [hmuted]
    rw [if_pos hgt, if_pos hreq]
    exact ⟨rfl, rfl, rfl, rfl, rfl⟩

/-- Witness for C5's theorem: below the high-water mark with a Stop
request the state is untouched and the stream completes; above it with a
Mute request the FIFO is drained by `bytesToRead` bytes. -/
theorem muted_steady_witness :
    ((portAudioCbPrivate
        { sampleRate_kHz := 1, numChannels := 1, bytesPerFrame := 2, bufferFrames := 60,
          streamSampleRate := 1000, streamNumChannels := 1, linearVolume := 1,
          playbackState := .Muted, cbRequest := ⟨true, false, false⟩,
          inFifo := ⟨16, List.replicate 16 3, 14, 0, 14⟩ } 1).output = .silence 2 ∧
      (portAudioCbPrivate
        { sampleRate_kHz := 1, numChannels := 1, bytesPerFrame := 2, bufferFrames := 60,
          streamSampleRate := 1000, streamNumChannels := 1, linearVolume := 1,
          playbackState := .Muted, cbRequest := ⟨true, false, false⟩,
          inFifo := ⟨16, List.replicate 16 3, 14, 0, 14⟩ } 1).outState.inFifo.count = 14 - 2 ∧
      (portAudioCbPrivate
        { sampleRate_kHz := 1, numChannels := 1, bytesPerFrame := 2, bufferFrames := 60,
          streamSampleRate := 1000, streamNumChannels := 1, linearVolume := 1,
          playbackState := .Muted, cbRequest := ⟨true, false, false⟩,
          inFifo := ⟨16, List.replicate 16 3, 14, 0, 14⟩ } 1).outState.inFifo.tail =
        (0 + 2) % 16 ∧
      (portAudioCbPrivate
        { sampleRate_kHz := 1, numChannels := 1, bytesPerFrame := 2, bufferFrames := 60,
          streamSampleRate := 1000, streamNumChannels := 1, linearVolume := 1,
          playbackState := .Muted, cbRequest := ⟨true, false, false⟩,
          inFifo := ⟨16, List.replicate 16 3, 14, 0, 14⟩ } 1).outState.playbackState = .Muted ∧
      (portAudioCbPrivate
        { sampleRate_kHz := 1, numChannels := 1, bytesPerFrame := 2, bufferFrames := 60,
          streamSampleRate := 1000, streamNumChannels := 1, linearVolume := 1,
          playbackState := .Muted, cbRequest := ⟨true, false, false⟩,
          inFifo := ⟨16, List.replicate 16 3, 14, 0, 14⟩ } 1).ret =
        (if false || false then .paComplete else .paContinue)) := by
  exact (muted_steady
    { sampleRate_kHz := 1, numChannels := 1, bytesPerFrame := 2, bufferFrames := 60,
      streamSampleRate := 1000, streamNumChannels := 1, linearVolume := 1,
      playbackState := .Muted, cbRequest := ⟨true, false, false⟩,
      inFifo := ⟨16, List.replicate 16 3, 14, 0, 14⟩ } 1 (by decide)).2
    (by decide) (by decide)

/-- C5 counterexample to the claim as stated: a Muted engine whose
buffered count (4 bytes) is below the high-water mark (24 bytes) with no
pending request outputs silence but drains nothing: the count stays 4
instead of dropping by the callback's 4 requested bytes, refuting
"outputs silence ... and drains an equivalent number of bytes". -/
theorem muted_steady_no_drain :
    (portAudioCbPrivate
        { sampleRate_kHz := 1, numChannels := 1, bytesPerFrame := 2, bufferFrames := 60,
          streamSampleRate := 1000, streamNumChannels := 1, linearVolume := 1,
          playbackState := .Muted, cbRequest := Request.noReq,
          inFifo := ⟨8, [1, 2, 3, 4, 0, 0, 0, 0], 4, 0, 4⟩ } 2).output = .silence 4 ∧
    (portAudioCbPrivate
        { sampleRate_kHz := 1, numChannels := 1, bytesPerFrame := 2, bufferFrames := 60,
          streamSampleRate := 1000, streamNumChannels := 1, linearVolume := 1,
          playbackState := .Muted, cbRequest := Request.noReq,
          inFifo := ⟨8, [1, 2, 3, 4, 0, 0, 0, 0], 4, 0, 4⟩ } 2).outState.inFifo.count = 4 ∧
    (4 : ℕ) < 6 * (2 * 2) ∧ (4 : ℕ) ≠ 4 - 2 * 2 := by decide

/-! ## Claim C6: volume scaling -/

/-- C6 (amended): whenever `linearVolume ≤ 0.9`, every output sample of
the data paths equals the input sample multiplied by the volume and
rounded; in particular volume `0.5` maps `{1000, −1000}` to
`{500, −500}`.  (For `linearVolume > 0.9` the source uses a raw
`memcpy` instead, see the counterexample.) -/
theorem volume_scaling (v : ℚ) (xs : List ℤ) (hv : v ≤ 9 / 10) :
    scaleSamples v xs = xs.map (fun x => lroundQ (v * (x : ℚ))) ∧
    scaleSamples (1 / 2) [1000, -1000] = [500, -500] := by
  constructor
  · unfold scaleSamples
    rw [if_neg (not_lt.mpr hv)]
  · norm_num [scaleSamples, lroundQ, Int.ceil_neg]

/-- Witness for C6's theorem at volume `1/2` and samples
`[1000, −1000]`. -/
theorem volume_scaling_witness :
    scaleSamples (1 / 2) [1000, -1000] =
      [1000, -1000].map (fun x => lroundQ ((1 / 2 : ℚ) * (x : ℚ))) ∧
    scaleSamples (1 / 2) [1000, -1000] = [500, -500] :=
  volume_scaling (1 / 2) [1000, -1000] (by norm_num)

/-- C6 counterexample to the claim as stated: `linearVolume = 0.95` is
not full scale, yet the source's `volume > 0.9` test selects the raw
copy branch, so the sample 1000 is emitted unchanged although
multiply-and-round would give 950. -/
theorem volume_not_scaled_above_09 :
    scaleSamples (19 / 20) [1000] = [1000] ∧ (19 / 20 : ℚ) ≠ 1 ∧
    lroundQ ((19 / 20) * ((1000 : ℤ) : ℚ)) = 950 := by
  norm_num [scaleSamples, lroundQ]

/-! ## Claim C9: the unmute transition -/

/-- C9: a Muted-state callback ends Playing only when the buffered count
strictly exceeds the high-water mark `6 * bytesToRead` and no request
bit is pending; the output is then the FIFO data with the unmute ramp
over the callback's frames, whose gain starts at the fade floor
`AUDIOOUTPUT_FADE_MIN_LIN` and compounds by `2 − muteFactor` per
sample (`gui/audiooutput.cpp` lines 239-244, 574-595). -/
theorem unmute_precondition (s : AudioOutputState) (n : ℕ)
    (hmuted : s.playbackState = .Muted)
    (hplay : (portAudioCbPrivate s n).outState.playbackState = .Playing) :
    6 * (s.bytesPerFrame * n) < s.inFifo.count ∧
    s.cbRequest = Request.noReq ∧
    (portAudioCbPrivate s n).output =
      .unmuteData (s.inFifo.readOut (s.bytesPerFrame * n)) n ∧
    (portAudioCbPrivate s n).ret = .paContinue ∧
    unmuteGain (muteFactorR s.sampleRate_kHz) 0 = AUDIOOUTPUT_FADE_MIN_LIN ∧
    (∀ k, unmuteGain (muteFactorR s.sampleRate_kHz) (k + 1) =
      (2 - muteFactorR s.sampleRate_kHz) * unmuteGain (muteFactorR s.sampleRate_kHz) k) := by
  have hgain0 : unmuteGain (muteFactorR s.sampleRate_kHz) 0 = AUDIOOUTPUT_FADE_MIN_LIN := by
    simp [unmuteGain]
  have hgainS : ∀ k, unmuteGain (muteFactorR s.sampleRate_kHz) (k + 1) =
      (2 - muteFactorR s.sampleRate_kHz) * unmuteGain (muteFactorR s.sampleRate_kHz) k := by
    intro k; simp [unmuteGain, pow_succ]; ring
  revert hplay
  unfold portAudioCbPrivate
  rw [hmuted]
  by_cases hc : 6 * (s.bytesPerFrame * n) < s.inFifo.count
  · rw [if_pos hc]
    by_cases hr : s.cbRequest = Request.noReq
    · rw [if_neg (not_not_intro hr)]
      intro _
      exact ⟨hc, hr, rfl, rfl, hgain0, hgainS⟩
    · rw [if_pos hr]
      intro hplay
      exact absurd hplay (by simp)
  · rw [if_neg hc]
    intro hplay
    exact absurd hplay (by simp [hmuted])

/-- Witness for C9's theorem: a Muted engine with 14 buffered bytes and
high-water mark 12 unmutes on a one-frame callback. -/
theorem unmute_precondition_witness :
    6 * (2 * 1) <
      (⟨16, List.replicate 16 7, 14, 0, 14⟩ : Fifo).count ∧
    Request.noReq = Request.noReq ∧
    (portAudioCbPrivate
        { sampleRate_kHz := 48, numChannels := 1, bytesPerFrame := 2, bufferFrames := 2880,
          streamSampleRate := 48000, streamNumChannels := 1, linearVolume := 1,
          playbackState := .Muted, cbRequest := Request.noReq,
          inFifo := ⟨16, List.replicate 16 7, 14, 0, 14⟩ } 1).output =
      .unmuteData ((⟨16, List.replicate 16 7, 14, 0, 14⟩ : Fifo).readOut (2 * 1)) 1 ∧
    (portAudioCbPrivate
        { sampleRate_kHz := 48, numChannels := 1, bytesPerFrame := 2, bufferFrames := 2880,
          streamSampleRate := 48000, streamNumChannels := 1, linearVolume := 1,
          playbackState := .Muted, cbRequest := Request.noReq,
          inFifo := ⟨16, List.replicate 16 7, 14, 0, 14⟩ } 1).ret = .paContinue ∧
    unmuteGain (muteFactorR 48) 0 = AUDIOOUTPUT_FADE_MIN_LIN ∧
    (∀ k, unmuteGain (muteFactorR 48) (k + 1) =
      (2 - muteFactorR 48) * unmuteGain (muteFactorR 48) k) := by
  exact unmute_precondition
    { sampleRate_kHz := 48, numChannels := 1, bytesPerFrame := 2, bufferFrames := 2880,
      streamSampleRate := 48000, streamNumChannels := 1, linearVolume := 1,
      playbackState := .Muted, cbRequest := Request.noReq,
      inFifo := ⟨16, List.replicate 16 7, 14, 0, 14⟩ } 1 (by decide) (by decide)

/-! ## Claim C8: fade coefficient formulas -/
/-- Compounding `10^(d/(20 n))` over `n` samples gives `10^(d/20)`. -/
theorem rpow_div_pow_eq (d : ℝ) (n : ℕ) (hn : n ≠ 0) :
    ((10 : ℝ) ^ (d / (20 * (n : ℝ)))) ^ n = (10 : ℝ) ^ (d / 20) := by
  have hne : (n : ℝ) ≠ 0 := Nat.cast_ne_zero.mpr hn
  rw [← Real.rpow_natCast ((10 : ℝ) ^ (d / (20 * (n : ℝ)))) n]
  rw [← Real.rpow_mul (by norm_num)]
  congr 1
  field_simp
  ring

/-- C8: the per-sample fade coefficient `m_muteFactor` equals
`10^(FADE_MIN_DB / (20 * fadeDurationMs * sampleRateKHz))` (the spec's
formula, `gui/audiooutput.cpp` line 118); whenever fewer samples than
one full fade window are available, the mute-ramp coefficient is
recomputed as `10^(FADE_MIN_DB / (20 * availableSamples))` (lines
600-604), and compounding that coefficient over exactly the available
samples lands exactly on the fade floor `AUDIOOUTPUT_FADE_MIN_LIN`
(−70 dB), i.e. the ramp completes within the available data; the
precomputed coefficient does the same over the full window. -/
theorem fade_coefficient (kHz avail : ℕ) (hk : 0 < kHz) (ha : 0 < avail) :
    muteFactorR kHz =
      (10 : ℝ) ^ ((AUDIOOUTPUT_FADE_MIN_DB : ℝ) /
        (20 * (AUDIOOUTPUT_FADE_TIME_MS : ℝ) * (kHz : ℝ))) ∧
    (avail < AUDIOOUTPUT_FADE_TIME_MS * kHz →
      muteCoe kHz avail =
        (10 : ℝ) ^ ((AUDIOOUTPUT_FADE_MIN_DB : ℝ) / (20 * (avail : ℝ))) ∧
      muteCoe kHz avail ^ avail = AUDIOOUTPUT_FADE_MIN_LIN) ∧
    muteFactorR kHz ^ (AUDIOOUTPUT_FADE_TIME_MS * kHz) = AUDIOOUTPUT_FADE_MIN_LIN := by
  refine ⟨rfl, ?_, ?_⟩
  · intro hlt
    have h1 : muteCoe kHz avail =
        (10 : ℝ) ^ ((AUDIOOUTPUT_FADE_MIN_DB : ℝ) / (20 * (avail : ℝ))) := by
      unfold muteCoe
      rw [if_pos hlt]
    refine ⟨h1, ?_⟩
    rw [h1]
    exact rpow_div_pow_eq _ avail (by omega)
  · unfold muteFactorR AUDIOOUTPUT_FADE_MIN_LIN
    have h2 : 20 * ((AUDIOOUTPUT_FADE_TIME_MS : ℕ) : ℝ) * (kHz : ℝ) =
        20 * ((AUDIOOUTPUT_FADE_TIME_MS * kHz : ℕ) : ℝ) := by
      push_cast
      ring
    rw [h2]
    exact rpow_div_pow_eq _ (AUDIOOUTPUT_FADE_TIME_MS * kHz)
      (by unfold AUDIOOUTPUT_FADE_TIME_MS; omega)

/-- Witness for C8's theorem at 1 kHz with 30 available samples (half a
fade window). -/
theorem fade_coefficient_witness :
    (muteFactorR 1 =
      (10 : ℝ) ^ ((AUDIOOUTPUT_FADE_MIN_DB : ℝ) /
        (20 * (AUDIOOUTPUT_FADE_TIME_MS : ℝ) * (1 : ℕ)))) ∧
    ((30 : ℕ) < AUDIOOUTPUT_FADE_TIME_MS * 1 →
      muteCoe 1 30 =
        (10 : ℝ) ^ ((AUDIOOUTPUT_FADE_MIN_DB : ℝ) / (20 * ((30 : ℕ) : ℝ))) ∧
      muteCoe 1 30 ^ 30 = AUDIOOUTPUT_FADE_MIN_LIN) ∧
    muteFactorR 1 ^ (AUDIOOUTPUT_FADE_TIME_MS * 1) = AUDIOOUTPUT_FADE_MIN_LIN :=
  fade_coefficient 1 30 (by decide) (by decide)

/-! ## Claim C7: fade gain monotonicity and bounds -/
/-- The fade coefficient is a positive linear gain. -/
theorem muteFactorR_pos (kHz : ℕ) : 0 < muteFactorR kHz :=
  Real.rpow_pos_of_pos (by norm_num) _

/-- The fade coefficient is strictly below 1 (the fade floor is below
0 dB). -/
theorem muteFactorR_lt_one (kHz : ℕ) (hk : 0 < kHz) : muteFactorR kHz < 1 := by
  unfold muteFactorR
  apply Real.rpow_lt_one_of_one_lt_of_neg (by norm_num)
  apply div_neg_of_neg_of_pos
  · unfold AUDIOOUTPUT_FADE_MIN_DB
    norm_num
  · unfold AUDIOOUTPUT_FADE_TIME_MS
    positivity

/-- Compounding the precomputed coefficient over one full fade window
lands exactly on the fade floor. -/
theorem muteFactorR_pow_window (kHz : ℕ) (hk : 0 < kHz) :
    muteFactorR kHz ^ (AUDIOOUTPUT_FADE_TIME_MS * kHz) = AUDIOOUTPUT_FADE_MIN_LIN := by
  unfold muteFactorR AUDIOOUTPUT_FADE_MIN_LIN
  have h2 : 20 * ((AUDIOOUTPUT_FADE_TIME_MS : ℕ) : ℝ) * (kHz : ℝ) =
      20 * ((AUDIOOUTPUT_FADE_TIME_MS * kHz : ℕ) : ℝ) := by
    push_cast
    ring
  rw [h2]
  exact rpow_div_pow_eq _ (AUDIOOUTPUT_FADE_TIME_MS * kHz)
    (by unfold AUDIOOUTPUT_FADE_TIME_MS; omega)

/-- The fade floor is a positive (non-zero) linear gain. -/
theorem fade_min_lin_pos : 0 < AUDIOOUTPUT_FADE_MIN_LIN :=
  Real.rpow_pos_of_pos (by norm_num) _

/-- Within one fade window the unmute ramp gain never exceeds 1:
`(2 - f)^n ≤ f^(-n)` and `f^window` is exactly the fade floor, so the
product with the floor stays at most 1. -/
theorem unmuteGain_le_one (kHz n : ℕ) (hk : 0 < kHz)
    (hn : n ≤ AUDIOOUTPUT_FADE_TIME_MS * kHz) :
    unmuteGain (muteFactorR kHz) n ≤ 1 := by
  have hfpos := muteFactorR_pos kHz
  have hflt := muteFactorR_lt_one kHz hk
  have hFpos := fade_min_lin_pos
  have hkey : 2 - muteFactorR kHz ≤ (muteFactorR kHz)⁻¹ := by
    rw [inv_eq_one_div, le_div_iff hfpos]
    nlinarith [sq_nonneg (1 - muteFactorR kHz)]
  have h1f : 1 ≤ (muteFactorR kHz)⁻¹ := by
    rw [inv_eq_one_div, le_div_iff hfpos]
    linarith
  have h2 : (2 - muteFactorR kHz) ^ n ≤ ((muteFactorR kHz)⁻¹) ^ n :=
    pow_le_pow_left (by linarith) hkey n
  have h3 : ((muteFactorR kHz)⁻¹) ^ n ≤ ((muteFactorR kHz)⁻¹) ^ (AUDIOOUTPUT_FADE_TIME_MS * kHz) :=
    pow_le_pow_right₀ h1f hn
  calc unmuteGain (muteFactorR kHz) n
      = AUDIOOUTPUT_FADE_MIN_LIN * (2 - muteFactorR kHz) ^ n := rfl
    _ ≤ AUDIOOUTPUT_FADE_MIN_LIN * ((muteFactorR kHz)⁻¹) ^ n :=
        mul_le_mul_of_nonneg_left h2 (le_of_lt hFpos)
    _ ≤ AUDIOOUTPUT_FADE_MIN_LIN * ((muteFactorR kHz)⁻¹) ^ (AUDIOOUTPUT_FADE_TIME_MS * kHz) :=
        mul_le_mul_of_nonneg_left h3 (le_of_lt hFpos)
    _ = AUDIOOUTPUT_FADE_MIN_LIN * (muteFactorR kHz ^ (AUDIOOUTPUT_FADE_TIME_MS * kHz))⁻¹ := by
        rw [inv_pow]
    _ = AUDIOOUTPUT_FADE_MIN_LIN * AUDIOOUTPUT_FADE_MIN_LIN⁻¹ := by
        rw [muteFactorR_pow_window kHz hk]
    _ = 1 := mul_inv_cancel₀ (ne_of_gt hFpos)



/-- C7 (amended): during an unmute ramp the per-sample gains start at
the fade floor, are non-decreasing, positive, and never exceed 1 within
the fade window; hence in the volume-scaled branch (`linearVolume ≤ 0.9`)
the effective per-sample gain `linearVolume * rampGain` never exceeds
`linearVolume`.  During a mute ramp (any coefficient in `(0, 1]`, which
covers both `m_muteFactor` and the recomputed short-window coefficient)
the gains are non-increasing, positive and at most 1, and the ramp ends
exactly at the fade floor (near zero).  In the raw-copy branch
(`linearVolume > 0.9`) the ramp gain alone is applied and can exceed
`linearVolume` — see the counterexample — though never 1. -/
theorem fade_monotone (kHz : ℕ) (hk : 0 < kHz) :
    (0 < muteFactorR kHz ∧ muteFactorR kHz < 1) ∧
    unmuteGain (muteFactorR kHz) 0 = AUDIOOUTPUT_FADE_MIN_LIN ∧
    (∀ n, unmuteGain (muteFactorR kHz) n ≤ unmuteGain (muteFactorR kHz) (n + 1)) ∧
    (∀ n, 0 < unmuteGain (muteFactorR kHz) n) ∧
    (∀ n, n ≤ AUDIOOUTPUT_FADE_TIME_MS * kHz → unmuteGain (muteFactorR kHz) n ≤ 1) ∧
    (∀ (v : ℚ) n, 0 ≤ v → n ≤ AUDIOOUTPUT_FADE_TIME_MS * kHz →
      (v : ℝ) * unmuteGain (muteFactorR kHz) n ≤ (v : ℝ)) ∧
    (∀ (c : ℝ) n, 0 < c → c ≤ 1 →
      muteGain c (n + 1) ≤ muteGain c n ∧ 0 < muteGain c n ∧ muteGain c n ≤ 1) ∧
    muteGain (muteFactorR kHz) (AUDIOOUTPUT_FADE_TIME_MS * kHz - 1) =
      AUDIOOUTPUT_FADE_MIN_LIN := by
  have hfpos := muteFactorR_pos kHz
  have hflt := muteFactorR_lt_one kHz hk
  have hFpos := fade_min_lin_pos
  refine ⟨⟨hfpos, hflt⟩, by simp [unmuteGain], ?_, ?_, ?_, ?_, ?_, ?_⟩
  · intro n
    exact mul_le_mul_of_nonneg_left
      (pow_le_pow_right₀ (by linarith) (Nat.le_succ n)) (le_of_lt hFpos)
  · intro n
    exact mul_pos hFpos (pow_pos (by linarith) n)
  · intro n hn
    exact unmuteGain_le_one kHz n hk hn
  · intro v n hv hn
    have h1 := unmuteGain_le_one kHz n hk hn
    have h2 : 0 < unmuteGain (muteFactorR kHz) n := mul_pos hFpos (pow_pos (by linarith) n)
    exact mul_le_of_le_one_right (by exact_mod_cast hv) h1
  · intro c n hc0 hc1
    exact ⟨pow_le_pow_of_le_one (le_of_lt hc0) hc1 (by omega),
      pow_pos hc0 _, pow_le_one₀ (le_of_lt hc0) hc1⟩
  · unfold muteGain
    rw [show AUDIOOUTPUT_FADE_TIME_MS * kHz - 1 + 1 = AUDIOOUTPUT_FADE_TIME_MS * kHz from by
      unfold AUDIOOUTPUT_FADE_TIME_MS; omega]
    exact muteFactorR_pow_window kHz hk

/-- Witness for C7's amended theorem at 1 kHz. -/
theorem fade_monotone_witness :
    ((0 < muteFactorR 1 ∧ muteFactorR 1 < 1) ∧
    unmuteGain (muteFactorR 1) 0 = AUDIOOUTPUT_FADE_MIN_LIN ∧
    (∀ n, unmuteGain (muteFactorR 1) n ≤ unmuteGain (muteFactorR 1) (n + 1)) ∧
    (∀ n, 0 < unmuteGain (muteFactorR 1) n) ∧
    (∀ n, n ≤ AUDIOOUTPUT_FADE_TIME_MS * 1 → unmuteGain (muteFactorR 1) n ≤ 1) ∧
    (∀ (v : ℚ) n, 0 ≤ v → n ≤ AUDIOOUTPUT_FADE_TIME_MS * 1 →
      (v : ℝ) * unmuteGain (muteFactorR 1) n ≤ (v : ℝ)) ∧
    (∀ (c : ℝ) n, 0 < c → c ≤ 1 →
      muteGain c (n + 1) ≤ muteGain c n ∧ 0 < muteGain c n ∧ muteGain c n ≤ 1) ∧
    muteGain (muteFactorR 1) (AUDIOOUTPUT_FADE_TIME_MS * 1 - 1) =
      AUDIOOUTPUT_FADE_MIN_LIN) :=
  fade_monotone 1 (by decide)

/-- C7 counterexample to the claim as stated: at 16 kHz with
`linearVolume = 0.91` (raw-copy branch, since `0.91 > 0.9`, so the ramp
gain is the entire applied gain) the unmute ramp's gain at sample 959 —
inside the 960-sample fade window — exceeds `linearVolume`:
`FADE_MIN_LIN * (2 - muteFactor)^959 > 0.91`, refuting "at no point is
any single-sample gain greater than linearVolume".  The bound is
certified by rational bracketing: `muteFactor ≤ 0.99164030` since
`0.99164030^1920 ≥ 10^(-7) = muteFactor^1920`, and
`FADE_MIN_LIN ≥ 1/3163` since `3163^2 ≥ 10^7`. -/
theorem unmute_gain_exceeds_volume :
    (9 : ℚ) / 10 < 91 / 100 ∧
    (91 : ℝ) / 100 < unmuteGain (muteFactorR 16) 959 ∧
    959 < AUDIOOUTPUT_FADE_TIME_MS * 16 := by
  have h10 : (0 : ℝ) < 10 := by norm_num
  have hfpos := muteFactorR_pos 16
  have hFpos := fade_min_lin_pos
  -- f^1920 = 10^(-7)
  have hf_pow : muteFactorR 16 ^ (1920 : ℕ) = (10 : ℝ) ^ ((-7 : ℝ)) := by
    unfold muteFactorR
    rw [← Real.rpow_natCast ((10 : ℝ) ^ ((AUDIOOUTPUT_FADE_MIN_DB : ℝ) /
      (20 * (AUDIOOUTPUT_FADE_TIME_MS : ℝ) * ((16 : ℕ) : ℝ)))) 1920]
    rw [← Real.rpow_mul (le_of_lt h10)]
    congr 1
    unfold AUDIOOUTPUT_FADE_MIN_DB AUDIOOUTPUT_FADE_TIME_MS
    norm_num
  -- q = 99164030/10^8 dominates f
  have hq1920 : (10 : ℝ) ^ ((-7 : ℝ)) ≤ ((99164030 : ℝ) / 10 ^ 8) ^ (1920 : ℕ) := by
    have hnat : ((10 : ℕ) ^ 120) ^ 128 ≤ ((99164030 : ℕ) ^ 15) ^ 128 * 10 ^ 7 := by decide
    have hnat2 : (10 : ℕ) ^ 15360 ≤ 99164030 ^ 1920 * 10 ^ 7 := by
      calc (10 : ℕ) ^ 15360 = (10 ^ 120) ^ 128 := by rw [← pow_mul]
        _ ≤ ((99164030 : ℕ) ^ 15) ^ 128 * 10 ^ 7 := hnat
        _ = 99164030 ^ 1920 * 10 ^ 7 := by rw [← pow_mul]
    have hreal : ((10 : ℝ)) ^ (15360 : ℕ) ≤ (99164030 : ℝ) ^ (1920 : ℕ) * 10 ^ (7 : ℕ) := by
      exact_mod_cast hnat2
    rw [Real.rpow_neg (le_of_lt h10), show ((7 : ℝ)) = ((7 : ℕ) : ℝ) from by norm_num,
      Real.rpow_natCast]
    rw [div_pow, show ((10 : ℝ) ^ 8) ^ (1920 : ℕ) = (10 : ℝ) ^ (15360 : ℕ) from by
      rw [← pow_mul]]
    rw [inv_eq_one_div, div_le_div_iff (by positivity) (by positivity)]
    rw [one_mul]
    linarith
  have hfq : muteFactorR 16 ≤ (99164030 : ℝ) / 10 ^ 8 := by
    by_contra hlt
    push_neg at hlt
    have h2 : ((99164030 : ℝ) / 10 ^ 8) ^ (1920 : ℕ) < muteFactorR 16 ^ (1920 : ℕ) :=
      pow_lt_pow_left hlt (by positivity) (by norm_num)
    rw [hf_pow] at h2
    exact absurd hq1920 (not_le.mpr h2)
  have hb : (100835970 : ℝ) / 10 ^ 8 ≤ 2 - muteFactorR 16 := by
    have he : (100835970 : ℝ) / 10 ^ 8 = 2 - (99164030 : ℝ) / 10 ^ 8 := by norm_num
    linarith
  -- FADE_MIN_LIN >= 1/3163
  have hF : (1 : ℝ) / 3163 ≤ AUDIOOUTPUT_FADE_MIN_LIN := by
    have hF_pow : AUDIOOUTPUT_FADE_MIN_LIN ^ (2 : ℕ) = (10 : ℝ) ^ ((-7 : ℝ)) := by
      unfold AUDIOOUTPUT_FADE_MIN_LIN
      rw [← Real.rpow_natCast ((10 : ℝ) ^ ((AUDIOOUTPUT_FADE_MIN_DB : ℝ) / 20)) 2]
      rw [← Real.rpow_mul (le_of_lt h10)]
      congr 1
      unfold AUDIOOUTPUT_FADE_MIN_DB
      norm_num
    by_contra hlt
    push_neg at hlt
    have h2 : AUDIOOUTPUT_FADE_MIN_LIN ^ (2 : ℕ) < ((1 : ℝ) / 3163) ^ (2 : ℕ) :=
      pow_lt_pow_left hlt (le_of_lt hFpos) (by norm_num)
    rw [hF_pow] at h2
    rw [Real.rpow_neg (le_of_lt h10), show ((7 : ℝ)) = ((7 : ℕ) : ℝ) from by norm_num,
      Real.rpow_natCast] at h2
    norm_num at h2
  -- (b/10^8)^959 >= 2879
  have hb959 : (2879 : ℝ) ≤ ((100835970 : ℝ) / 10 ^ 8) ^ (959 : ℕ) := by
    have hnat : 2879 * ((10 : ℕ) ^ 56) ^ 137 ≤ ((100835970 : ℕ) ^ 7) ^ 137 := by decide
    have hnat2 : 2879 * (10 : ℕ) ^ 7672 ≤ 100835970 ^ 959 := by
      calc 2879 * (10 : ℕ) ^ 7672 = 2879 * (10 ^ 56) ^ 137 := by rw [← pow_mul]
        _ ≤ ((100835970 : ℕ) ^ 7) ^ 137 := hnat
        _ = 100835970 ^ 959 := by rw [← pow_mul]
    have hreal : (2879 : ℝ) * (10 : ℝ) ^ (7672 : ℕ) ≤ (100835970 : ℝ) ^ (959 : ℕ) := by
      exact_mod_cast hnat2
    rw [div_pow, show ((10 : ℝ) ^ 8) ^ (959 : ℕ) = (10 : ℝ) ^ (7672 : ℕ) from by
      rw [← pow_mul]]
    rw [le_div_iff (by positivity)]
    exact hreal
  refine ⟨by norm_num, ?_, by decide⟩
  calc (91 : ℝ) / 100 < (1 / 3163) * 2879 := by norm_num
    _ ≤ AUDIOOUTPUT_FADE_MIN_LIN * ((100835970 : ℝ) / 10 ^ 8) ^ (959 : ℕ) :=
        mul_le_mul hF hb959 (by norm_num) (le_of_lt hFpos)
    _ ≤ AUDIOOUTPUT_FADE_MIN_LIN * (2 - muteFactorR 16) ^ (959 : ℕ) :=
        mul_le_mul_of_nonneg_left (pow_le_pow_left (by positivity) hb 959) (le_of_lt hFpos)
    _ = unmuteGain (muteFactorR 16) 959 := rfl

end AbracaDABra
